import Mathlib

/-!
Shallow embedding of `Recipe_Generator.py` (class `RecipeGenerator`) and
proofs about its matching-and-ranking core.

External collaborators are modelled as opaque parameters, as the spec
directs:
* the fuzzy similarity metric (`fuzz.partial_ratio`) is a parameter
  `sim : String → String → Nat` returning a ratio;
* the linguistic analyzer (`spacy`'s `nlp`) is a parameter
  `nlp : String → List Token`, where `Token` carries the attributes the
  code reads (`pos_`, `is_stop`, `lemma_`).

Python's stable `list.sort(key=..., reverse=True)` is modelled by
`List.mergeSort` (a stable merge sort) with the descending-score
comparator.
-/

namespace RecipeGen

/-- Type of the external fuzzy similarity function (`fuzz.partial_ratio`):
two strings in, an integer ratio out. -/
abbrev Sim := String → String → Nat

/-- A catalog row, as read by `find_recipes` from `self.df`: fields
`id`, `name`, `minutes`, `ingredients`, `steps`, `n_ingredients`. -/
structure Recipe where
  id : Nat
  name : String
  minutes : Nat
  ingredients : List String
  steps : List String
  n_ingredients : Nat
deriving DecidableEq

/-- The dict appended to `matches` in `find_recipes` (lines 35-43 of the
source): keys `id`, `name`, `time`, `score`, `ingredients`, `steps`,
`n_ingredients`. -/
structure MatchResult where
  id : Nat
  name : String
  time : Nat
  score : Nat
  ingredients : List String
  steps : List String
  n_ingredients : Nat
deriving DecidableEq

/-- Python's `str.lower()`, character-wise lower-casing. (Defined through
`List.map` rather than `String.map` so that it evaluates by kernel
reduction; the two agree.) -/
def pyLower (s : String) : String := String.mk (s.data.map Char.toLower)

/-- The inner loop of `_calculate_match_score` (lines 55-59): scan the
lower-cased recipe ingredients and stop at the first one whose similarity
ratio with `user_ing` exceeds 75 (the `break`). -/
def scanIngredients (sim : Sim) (user_ing : String) : List String → Bool
  | [] => false
  | recipe_ing :: rest =>
    if 75 < sim user_ing recipe_ing then true
    else scanIngredients sim user_ing rest

/-- `RecipeGenerator._calculate_match_score` (lines 49-61): lower-case the
recipe ingredients, then for each user ingredient add 1 to the score when
some recipe ingredient matches it. -/
def calculate_match_score (sim : Sim) (user_ingredients recipe_ingredients : List String) : Nat :=
  let recipe_ingredients_lower := recipe_ingredients.map pyLower
  user_ingredients.foldl
    (fun score user_ing =>
      if scanIngredients sim user_ing recipe_ingredients_lower then score + 1 else score)
    0

/-- Builds the match dict of `find_recipes` (lines 35-43) from a row and
its score. -/
def toMatch (row : Recipe) (match_score : Nat) : MatchResult :=
  ⟨row.id, row.name, row.minutes, match_score, row.ingredients, row.steps, row.n_ingredients⟩

/-- The filtering scan of `find_recipes` (lines 32-43): keep, in catalog
order, a match dict for every row whose score is positive. -/
def collect_matches (sim : Sim) (user_ingredients : List String) (df : List Recipe) :
    List MatchResult :=
  df.filterMap (fun row =>
    let match_score := calculate_match_score sim user_ingredients row.ingredients
    if 0 < match_score then some (toMatch row match_score) else none)

/-- Comparator of the sort in `find_recipes` line 46:
`key=lambda x: x['score'], reverse=True` orders by score descending. -/
def scoreDescLE (a b : MatchResult) : Bool :=
  decide (b.score ≤ a.score)

/-- `RecipeGenerator.find_recipes` (lines 28-47): scan the catalog, keep
positive-score matches, sort them stably by score descending, return the
first `max_recipes`. -/
def find_recipes (sim : Sim) (user_ingredients : List String) (df : List Recipe)
    (max_recipes : Nat) : List MatchResult :=
  let matched := collect_matches sim user_ingredients df
  (matched.mergeSort scoreDescLE).take max_recipes

/-- A spaCy token as the source reads it: part-of-speech tag `pos_`,
stop-word flag `is_stop`, lemma `lemma_`. -/
structure Token where
  pos_ : String
  is_stop : Bool
  lemma_ : String

/-- The filter of `extract_ingredients` (line 22): keep tokens tagged NOUN
or PROPN that are not stop-words. -/
def keepsToken (token : Token) : Bool :=
  ((token.pos_ == "NOUN") || (token.pos_ == "PROPN")) && !token.is_stop

/-- `RecipeGenerator.extract_ingredients` (lines 16-26): run the analyzer
on the lower-cased input, collect the lemmas of kept tokens, and remove
duplicates (`list(set(...))`; the set's iteration order is not specified,
so deduplication is modelled by `List.dedup`). -/
def extract_ingredients (nlp : String → List Token) (user_input : String) : List String :=
  let doc := nlp (pyLower user_input)
  let ingredients := (doc.filter keepsToken).map Token.lemma_
  ingredients.dedup

/-- Python's `"\n".join(...)` as used by `format_recipe` on lines 68 and
70 of the source: concatenate the strings with a newline between
consecutive elements. -/
def joinLines : List String → String
  | [] => ""
  | [a] => a
  | a :: b :: t => a ++ "\n" ++ joinLines (b :: t)

/-- `RecipeGenerator.format_recipe` (lines 63-71): multi-line rendering of
a match dict: name and id, time, ingredient count and list, 1-indexed
steps. -/
def format_recipe (recipe : MatchResult) : String :=
  "\nRecipe: " ++ recipe.name ++ " (ID: " ++ Nat.repr recipe.id ++ ")"
  ++ "\nTime: " ++ Nat.repr recipe.time ++ " minutes"
  ++ "\n\nIngredients (" ++ Nat.repr recipe.n_ingredients ++ "):"
  ++ "\n" ++ joinLines (recipe.ingredients.map (fun ing => "- " ++ ing))
  ++ "\n\nSteps:"
  ++ "\n" ++ joinLines
      (recipe.steps.enum.map (fun p => Nat.repr (p.1 + 1) ++ ". " ++ p.2))

/-- Splits a character sequence at every newline; the inverse direction
of the rendering, used to state the Presenter round-trip. -/
def splitLines : List Char → List (List Char)
  | [] => [[]]
  | c :: cs =>
    if c = '\n' then [] :: splitLines cs
    else
      match splitLines cs with
      | [] => [[c]]
      | l :: ls => (c :: l) :: ls

/-- Recognizes a displayed ingredient line: it starts with a dash and a
space. -/
def isItemLine : List Char → Bool
  | '-' :: ' ' :: _ => true
  | _ => false

/-- Parses the displayed ingredient list back out of a formatted recipe:
skip the five header lines (blank, name, time, blank, ingredient count),
take the dash-prefixed lines, and strip the two-character dash prefix
from each. -/
def parseDisplayedIngredients (s : String) : List String :=
  (((splitLines s.data).drop 5).takeWhile isItemLine).map (fun l => String.mk (l.drop 2))

/-- Membership predicate used to state the score: term `t` has at least
one sufficiently similar ingredient among the lower-cased recipe
ingredients. -/
def termHasMatch (sim : Sim) (recipe_ingredients : List String) (t : String) : Bool :=
  (recipe_ingredients.map pyLower).any (fun ri => decide (75 < sim t ri))

theorem scanIngredients_eq_any (sim : Sim) (u : String) (l : List String) :
    scanIngredients sim u l = l.any (fun ri => decide (75 < sim u ri)) := by
  induction l with
  | nil => rfl
  | cons a rest ih =>
    simp only [scanIngredients, List.any_cons]
    by_cases h : 75 < sim u a <;> simp [h, ih]

theorem foldl_count {α : Type} (q : α → Bool) :
    ∀ (l : List α) (n : Nat),
      l.foldl (fun score x => if q x then score + 1 else score) n = n + l.countP q
  | [], n => by simp
  | x :: l, n => by
    rw [List.foldl_cons, List.countP_cons, foldl_count q l]
    cases hq : q x
    · simp [hq]
    · simp only [hq, if_true, if_pos]
      omega

theorem calculate_match_score_eq_countP (sim : Sim) (terms ings : List String) :
    calculate_match_score sim terms ings = terms.countP (fun t => termHasMatch sim ings t) := by
  have h := foldl_count (fun u => scanIngredients sim u (ings.map pyLower)) terms 0
  rw [Nat.zero_add] at h
  calc calculate_match_score sim terms ings
      = terms.countP (fun u => scanIngredients sim u (ings.map pyLower)) := h
    _ = terms.countP (fun t => termHasMatch sim ings t) := by
        apply List.countP_congr
        intro a _
        rw [scanIngredients_eq_any]
        exact Iff.rfl

/-- C1: for every similarity function, list of query terms and recipe
ingredient list, the match score equals the number of query terms that
have at least one sufficiently similar ingredient (each term contributing
at most once, the inner scan stopping at its first match), and the score
is at most the number of terms. -/
theorem match_score_counts_terms (sim : Sim) (terms ings : List String) :
    calculate_match_score sim terms ings = terms.countP (fun t => termHasMatch sim ings t)
    ∧ calculate_match_score sim terms ings ≤ terms.length := by
  refine ⟨calculate_match_score_eq_countP sim terms ings, ?_⟩
  rw [calculate_match_score_eq_countP]
  exact List.countP_le_length _

/-- C2: a single term against a single ingredient scores 1 exactly when
the similarity ratio with the lower-cased ingredient is strictly greater
than 75, and 0 otherwise — in particular a ratio of exactly 75 scores 0. -/
theorem match_threshold_strict (sim : Sim) (t ing : String) :
    calculate_match_score sim [t] [ing] = if 75 < sim t (pyLower ing) then 1 else 0 := by
  simp only [calculate_match_score, List.map_cons, List.map_nil, List.foldl_cons,
    List.foldl_nil, scanIngredients]
  by_cases h : 75 < sim t (pyLower ing) <;> simp [h]

theorem score_pos_of_mem_collect {sim : Sim} {terms : List String} {df : List Recipe}
    {r : MatchResult} (h : r ∈ collect_matches sim terms df) : 1 ≤ r.score := by
  simp only [collect_matches, List.mem_filterMap] at h
  obtain ⟨row, -, hrow⟩ := h
  by_cases hpos : 0 < calculate_match_score sim terms row.ingredients
  · rw [if_pos hpos] at hrow
    obtain rfl := Option.some.inj hrow
    exact hpos
  · rw [if_neg hpos] at hrow
    cases hrow

/-- C3: for every similarity function, set of terms, catalog and positive
limit, every result returned by `find_recipes` has score at least 1:
zero-score recipes are discarded before ranking. -/
theorem find_recipes_score_ge_one (sim : Sim) (terms : List String) (df : List Recipe)
    (limit : Nat) (hlim : 0 < limit) :
    ∀ r ∈ find_recipes sim terms df limit, 1 ≤ r.score := by
  intro r hr
  simp only [find_recipes] at hr
  have h1 : r ∈ (collect_matches sim terms df).mergeSort scoreDescLE :=
    List.mem_of_mem_take hr
  exact score_pos_of_mem_collect (List.mem_mergeSort.mp h1)

theorem scoreDescLE_trans (a b c : MatchResult) :
    scoreDescLE a b → scoreDescLE b c → scoreDescLE a c := by
  simp only [scoreDescLE, decide_eq_true_eq]
  exact fun h1 h2 => Nat.le_trans h2 h1

theorem scoreDescLE_total (a b : MatchResult) : scoreDescLE a b || scoreDescLE b a := by
  simp only [scoreDescLE, Bool.or_eq_true, decide_eq_true_eq]
  exact Nat.le_total b.score a.score

theorem filter_score_mergeSort (l : List MatchResult) (s : Nat) :
    (l.mergeSort scoreDescLE).filter (fun r => r.score == s)
      = l.filter (fun r => r.score == s) := by
  have hperm : List.Perm ((l.mergeSort scoreDescLE).filter (fun r => r.score == s))
      (l.filter (fun r => r.score == s)) :=
    (List.mergeSort_perm l scoreDescLE).filter _
  have hpw : (l.filter (fun r => r.score == s)).Pairwise (fun a b => scoreDescLE a b = true) := by
    apply List.pairwise_of_forall_mem_list
    intro a ha b hb
    have ha' := List.of_mem_filter ha
    have hb' := List.of_mem_filter hb
    simp only [beq_iff_eq] at ha' hb'
    simp [scoreDescLE, ha', hb']
  have hsub : List.Sublist (l.filter (fun r => r.score == s)) (l.mergeSort scoreDescLE) :=
    List.sublist_mergeSort scoreDescLE_trans scoreDescLE_total hpw (List.filter_sublist l)
  have hsub2 : List.Sublist (l.filter (fun r => r.score == s))
      ((l.mergeSort scoreDescLE).filter (fun r => r.score == s)) := by
    have h2 := hsub.filter (fun r => r.score == s)
    simpa [List.filter_filter] using h2
  exact (hsub2.eq_of_length hperm.length_eq.symm).symm

/-- C4: results of `find_recipes` are sorted by score in non-increasing
order, and results of equal score keep their relative order from the
catalog scan (the sort is stable for ties): for every score value, the
equal-score results form the same sequence as in the unsorted match
list. -/
theorem find_recipes_ranked (sim : Sim) (terms : List String) (df : List Recipe)
    (limit : Nat) :
    (find_recipes sim terms df limit).Pairwise (fun a b => b.score ≤ a.score)
    ∧ ∀ s : Nat,
        List.Sublist ((find_recipes sim terms df limit).filter (fun r => r.score == s))
          ((collect_matches sim terms df).filter (fun r => r.score == s)) := by
  constructor
  · have h := List.sorted_mergeSort scoreDescLE_trans scoreDescLE_total
      (collect_matches sim terms df)
    have h2 : (find_recipes sim terms df limit).Pairwise (fun a b => scoreDescLE a b = true) := by
      simp only [find_recipes]
      exact List.Pairwise.sublist (List.take_sublist _ _) h
    exact h2.imp (fun hab => by simpa [scoreDescLE] using hab)
  · intro s
    simp only [find_recipes]
    have h1 := (List.take_sublist limit
        ((collect_matches sim terms df).mergeSort scoreDescLE)).filter
      (fun r => r.score == s)
    rwa [filter_score_mergeSort] at h1

/-- C5: for every similarity function, set of terms, catalog and limit at
least 1, `find_recipes` returns at most `limit` results (the ranked list
is truncated). -/
theorem find_recipes_length_le (sim : Sim) (terms : List String) (df : List Recipe)
    (limit : Nat) (hlim : 1 ≤ limit) :
    (find_recipes sim terms df limit).length ≤ limit := by
  simp only [find_recipes]
  exact List.length_take_le _ _

theorem collect_matches_nil_terms (sim : Sim) (df : List Recipe) :
    collect_matches sim [] df = [] := by
  simp only [collect_matches, List.filterMap_eq_nil_iff]
  intro row _
  simp [calculate_match_score]

/-- C6: with an empty term set every recipe scores 0 and `find_recipes`
returns the empty list, for every catalog and every limit. -/
theorem empty_terms_empty_result (sim : Sim) :
    (∀ ings : List String, calculate_match_score sim [] ings = 0)
    ∧ ∀ (df : List Recipe) (limit : Nat), find_recipes sim [] df limit = [] := by
  constructor
  · intro ings; rfl
  · intro df limit
    simp only [find_recipes]
    rw [collect_matches_nil_terms, List.mergeSort_nil, List.take_nil]

/-- C9: `find_recipes` is deterministic and pure: equal inputs give equal
outputs, and the catalog is left unchanged (in this embedding the catalog
is a value the function cannot mutate). -/
theorem find_recipes_deterministic (sim sim' : Sim) (terms terms' : List String)
    (df df' : List Recipe) (limit limit' : Nat)
    (hsim : sim = sim') (hterms : terms = terms') (hdf : df = df') (hlim : limit = limit') :
    find_recipes sim terms df limit = find_recipes sim' terms' df' limit' ∧ df = df' := by
  subst hsim hterms hdf hlim
  exact ⟨rfl, rfl⟩

/-- C10: the match score is invariant under permutation of the query-term
list, since each term is scored independently. -/
theorem match_score_perm_invariant (sim : Sim) (terms terms' ings : List String)
    (h : terms.Perm terms') :
    calculate_match_score sim terms ings = calculate_match_score sim terms' ings := by
  rw [calculate_match_score_eq_countP, calculate_match_score_eq_countP]
  exact h.countP_eq _

/-- Concrete similarity function used by witnesses: ratio 100 on equal
strings, 0 otherwise. -/
def simExact : Sim := fun a b => if a = b then 100 else 0

/-- Concrete catalog row used by witnesses. -/
def eggRecipe : Recipe := ⟨3, "omelette", 10, ["egg", "butter"], ["beat the eggs", "fry"], 2⟩

theorem collect_egg_eval :
    collect_matches simExact ["egg"] [eggRecipe] = [toMatch eggRecipe 1] := by
  decide

theorem find_recipes_egg_eval :
    find_recipes simExact ["egg"] [eggRecipe] 5 = [toMatch eggRecipe 1] := by
  simp only [find_recipes]
  rw [collect_egg_eval, List.mergeSort_singleton]
  rfl

/-- C3 witness at a concrete input. -/
theorem find_recipes_score_ge_one_witness :
    0 < 5 ∧ 1 ≤ (toMatch eggRecipe 1).score :=
  ⟨Nat.succ_pos 4,
    find_recipes_score_ge_one simExact ["egg"] [eggRecipe] 5 (Nat.succ_pos 4)
      (toMatch eggRecipe 1)
      (by rw [find_recipes_egg_eval]; exact List.mem_singleton_self _)⟩

/-- C5 witness at a concrete input. -/
theorem find_recipes_length_le_witness :
    1 ≤ 1 ∧ (find_recipes simExact ["egg"] [eggRecipe] 1).length ≤ 1 :=
  ⟨Nat.le_refl 1, find_recipes_length_le simExact ["egg"] [eggRecipe] 1 (Nat.le_refl 1)⟩

/-- C9 witness at a concrete input. -/
theorem find_recipes_deterministic_witness :
    find_recipes simExact ["egg"] [eggRecipe] 2 = find_recipes simExact ["egg"] [eggRecipe] 2
    ∧ [eggRecipe] = [eggRecipe] :=
  find_recipes_deterministic simExact simExact ["egg"] ["egg"] [eggRecipe] [eggRecipe] 2 2
    rfl rfl rfl rfl

/-- C10 witness at a concrete input. -/
theorem match_score_perm_invariant_witness :
    calculate_match_score simExact ["egg", "butter"] ["butter"]
      = calculate_match_score simExact ["butter", "egg"] ["butter"] :=
  match_score_perm_invariant simExact ["egg", "butter"] ["butter", "egg"] ["butter"]
    (List.Perm.swap "butter" "egg" [])

/-- C8: for every analyzer and input text, the term extractor returns a
duplicate-free list; every element is the lemma of a token of the
lower-cased text that is tagged noun or proper noun and is not a
stop-word; and when no token qualifies the result is empty. -/
theorem extract_ingredients_spec (nlp : String → List Token) (text : String) :
    (extract_ingredients nlp text).Nodup
    ∧ (∀ x ∈ extract_ingredients nlp text,
        ∃ tok ∈ nlp (pyLower text), keepsToken tok ∧ x = tok.lemma_)
    ∧ ((∀ tok ∈ nlp (pyLower text), ¬ keepsToken tok) → extract_ingredients nlp text = []) := by
  refine ⟨?_, ?_, ?_⟩
  · exact List.nodup_dedup _
  · intro x hx
    simp only [extract_ingredients, List.mem_dedup, List.mem_map, List.mem_filter] at hx
    obtain ⟨tok, ⟨htok, hkeep⟩, hlem⟩ := hx
    exact ⟨tok, htok, hkeep, hlem.symm⟩
  · intro h
    simp only [extract_ingredients]
    have hfil : (nlp (pyLower text)).filter keepsToken = [] := by
      rw [List.filter_eq_nil_iff]
      exact h
    rw [hfil]
    rfl

/-- Analyzer used by the C8 witness: a single verb token. -/
def nlpVerb : String → List Token := fun _ => [⟨"VERB", false, "run"⟩]

/-- C8 witness at a concrete input: no token qualifies, so the extractor
returns the empty list. -/
theorem extract_ingredients_spec_witness :
    extract_ingredients nlpVerb "I run" = [] :=
  (extract_ingredients_spec nlpVerb "I run").2.2 (by decide)

theorem mk_data : ∀ (s : String), String.mk s.data = s
  | ⟨_⟩ => rfl

theorem digitChar_ne_newline (m : Nat) (hm : m < 10) : Nat.digitChar m ≠ '\n' := by
  interval_cases m <;> decide

theorem toDigitsCore_ne_newline :
    ∀ (fuel n : Nat) (acc : List Char), (∀ c ∈ acc, c ≠ '\n') →
      ∀ c ∈ Nat.toDigitsCore 10 fuel n acc, c ≠ '\n'
  | 0, n, acc, hacc => by
    intro c hc
    exact hacc c hc
  | fuel + 1, n, acc, hacc => by
    have hd : Nat.digitChar (n % 10) ≠ '\n' :=
      digitChar_ne_newline (n % 10) (Nat.mod_lt n (by decide))
    simp only [Nat.toDigitsCore]
    split
    · intro c hc
      rcases List.mem_cons.mp hc with h | h
      · subst h; exact hd
      · exact hacc c h
    · refine toDigitsCore_ne_newline fuel _ _ ?_
      intro c hc
      rcases List.mem_cons.mp hc with h | h
      · subst h; exact hd
      · exact hacc c h

theorem natRepr_no_newline (n : Nat) : '\n' ∉ (Nat.repr n).data := by
  intro hmem
  exact toDigitsCore_ne_newline (n + 1) n [] (by intro c hc; cases hc) '\n' hmem rfl

theorem splitLines_newline (cs : List Char) :
    splitLines ('\n' :: cs) = [] :: splitLines cs := by
  simp [splitLines]

theorem splitLines_append_newline :
    ∀ (l r : List Char), '\n' ∉ l → splitLines (l ++ '\n' :: r) = l :: splitLines r
  | [], r, _ => by simp [splitLines]
  | c :: l, r, h => by
    have hc : c ≠ '\n' := fun hh => h (hh ▸ List.mem_cons_self c l)
    have ih := splitLines_append_newline l r (fun hm => h (List.mem_cons_of_mem c hm))
    simp only [List.cons_append, splitLines, if_neg hc, List.append_eq, ih]

theorem not_newline_mem_item (a : String) (ha : '\n' ∉ a.data) :
    '\n' ∉ ('-' :: ' ' :: a.data) := by
  simp only [List.mem_cons, not_or]
  exact ⟨by decide, by decide, ha⟩

theorem parse_block (rest : List Char) :
    ∀ (ings : List String), (∀ i ∈ ings, '\n' ∉ i.data) →
      (((splitLines ((joinLines (ings.map (fun ing => "- " ++ ing))).data
            ++ '\n' :: '\n' :: rest)).takeWhile isItemLine).map
          (fun l => String.mk (l.drop 2)))
        = ings
  | [], _ => by
    have h0 : (joinLines (([] : List String).map (fun ing => "- " ++ ing))).data
        ++ '\n' :: '\n' :: rest = '\n' :: '\n' :: rest := rfl
    rw [h0, splitLines_newline, List.takeWhile_cons_of_neg (by decide), List.map_nil]
  | [a], h => by
    have ha := not_newline_mem_item a (h a (List.mem_singleton_self a))
    have hdata : (joinLines (([a] : List String).map (fun ing => "- " ++ ing))).data
        ++ '\n' :: '\n' :: rest
        = ('-' :: ' ' :: a.data) ++ '\n' :: ('\n' :: rest) := by
      simp only [List.map_cons, List.map_nil, joinLines, String.data_append,
        List.cons_append, List.append_assoc]
      rfl
    rw [hdata, splitLines_append_newline _ _ ha, splitLines_newline,
      List.takeWhile_cons_of_pos (show isItemLine ('-' :: ' ' :: a.data) = true from rfl),
      List.takeWhile_cons_of_neg (by decide), List.map_cons, List.map_nil]
    rw [show ('-' :: ' ' :: a.data).drop 2 = a.data from rfl, mk_data]
  | a :: b :: t, h => by
    have ha := not_newline_mem_item a (h a (List.mem_cons_self a _))
    have hrest : ∀ i ∈ b :: t, '\n' ∉ i.data := fun i hi => h i (List.mem_cons_of_mem a hi)
    have ih := parse_block rest (b :: t) hrest
    have hjoin : joinLines ((a :: b :: t).map (fun ing => "- " ++ ing))
        = ("- " ++ a) ++ "\n" ++ joinLines ((b :: t).map (fun ing => "- " ++ ing)) := rfl
    have hdata : (joinLines ((a :: b :: t).map (fun ing => "- " ++ ing))).data
        ++ '\n' :: '\n' :: rest
        = ('-' :: ' ' :: a.data)
          ++ '\n' :: ((joinLines ((b :: t).map (fun ing => "- " ++ ing))).data
              ++ '\n' :: '\n' :: rest) := by
      rw [hjoin]
      simp only [String.data_append, List.cons_append, List.append_assoc]
      rfl
    rw [hdata, splitLines_append_newline _ _ ha,
      List.takeWhile_cons_of_pos (show isItemLine ('-' :: ' ' :: a.data) = true from rfl),
      List.map_cons, ih,
      show ('-' :: ' ' :: a.data).drop 2 = a.data from rfl, mk_data]

/-- C7: for every match result whose name and ingredients contain no
newline character, parsing the displayed ingredient list back out of the
formatted rendering recovers exactly the original ordered ingredient
sequence. -/
theorem format_roundtrip (r : MatchResult)
    (hname : '\n' ∉ r.name.data)
    (hings : ∀ ing ∈ r.ingredients, '\n' ∉ ing.data) :
    parseDisplayedIngredients (format_recipe r) = r.ingredients := by
  have hL1 : '\n' ∉ ("Recipe: ".data ++ r.name.data ++ " (ID: ".data
      ++ (Nat.repr r.id).data ++ [')']) := by
    simp only [List.mem_append, List.mem_singleton]
    push_neg
    exact ⟨⟨⟨⟨by decide, hname⟩, by decide⟩, natRepr_no_newline _⟩, by decide⟩
  have hL2 : '\n' ∉ ("Time: ".data ++ (Nat.repr r.time).data ++ " minutes".data) := by
    simp only [List.mem_append]
    push_neg
    exact ⟨⟨by decide, natRepr_no_newline _⟩, by decide⟩
  have hL4 : '\n' ∉ ("Ingredients (".data ++ (Nat.repr r.n_ingredients).data
      ++ [')', ':']) := by
    simp only [List.mem_append]
    push_neg
    exact ⟨⟨by decide, natRepr_no_newline _⟩, by decide⟩
  have hdata : (format_recipe r).data
      = '\n' :: (("Recipe: ".data ++ r.name.data ++ " (ID: ".data
            ++ (Nat.repr r.id).data ++ [')'])
          ++ '\n' :: (("Time: ".data ++ (Nat.repr r.time).data ++ " minutes".data)
          ++ '\n' :: '\n' :: (("Ingredients (".data ++ (Nat.repr r.n_ingredients).data
                ++ [')', ':'])
          ++ '\n' :: ((joinLines (r.ingredients.map (fun ing => "- " ++ ing))).data
              ++ '\n' :: '\n' :: ("Steps:".data
              ++ '\n' :: (joinLines (r.steps.enum.map
                    (fun p => Nat.repr (p.1 + 1) ++ ". " ++ p.2))).data))))) := by
    simp only [format_recipe, String.data_append, List.cons_append, List.append_assoc]
    rfl
  simp only [parseDisplayedIngredients, hdata, splitLines_newline,
    splitLines_append_newline _ _ hL1, splitLines_append_newline _ _ hL2,
    splitLines_append_newline _ _ hL4, List.drop_succ_cons, List.drop_zero]
  exact parse_block _ r.ingredients hings

/-- C7 witness at a concrete match result. -/
theorem format_roundtrip_witness :
    ('\n' ∉ (toMatch eggRecipe 1).name.data)
    ∧ parseDisplayedIngredients (format_recipe (toMatch eggRecipe 1)) = ["egg", "butter"] :=
  ⟨by decide, format_roundtrip (toMatch eggRecipe 1) (by decide) (by decide)⟩

end RecipeGen
